import Mathlib

/-!
Verification of the faros-server command-dispatch queue and device-flow
enrollment core, as a shallow embedding of the Python source
(`faros_server.services.command_service`, `faros_server.services.agent_service`,
`faros_server.dao.command_dao`, `faros_server.dao.agent_dao`,
`faros_server.models`).  Machine timestamps are embedded as `Int` seconds;
the transactional store is embedded as explicit lists of rows threaded
through each service call (one call = one unit of work).  Randomly
generated tokens (UUIDs, API keys) are passed as explicit parameters.
-/

namespace Faros

/-- Row of the `agent_commands` table (`faros_server.models.command.AgentCommand`). -/
structure AgentCommand where
  id : String
  agent_id : String
  type : String
  payload : Option String
  status : String
  result : Option String
  output : Option String
  created_at : Int
  delivered_at : Option Int
  acked_at : Option Int
deriving DecidableEq, Repr

/-- The `agent_commands` table: rows in insertion order. -/
abbrev CmdDB := List AgentCommand

/-- Errors raised by `CommandService` (typed counterparts of
`CommandNotFoundError`, `CommandAlreadyAckedError`, `CommandNotInProgressError`
and the blank-field 400 of the transport layer). -/
inductive CmdErr where
  | notFound
  | alreadyAcked
  | notInProgress
  | invalidArgument
deriving DecidableEq, Repr

/-- Minimal wire shape returned to a polling agent
(`CommandService._command_to_poll_dict`). -/
structure PollDict where
  command_id : String
  trace_id : String
  type : String
  payload : Option String
deriving DecidableEq, Repr

/-- `CommandService._command_to_poll_dict`: serialize a command to the
minimal poll shape; `trace_id` is the command id. -/
def commandToPollDict (c : AgentCommand) : PollDict :=
  { command_id := c.id, trace_id := c.id, type := c.type, payload := c.payload }

/-- `CommandDAO.create_command` + `CommandService.queue_command`: insert a
pending command.  The fresh UUID `cid` and the clock `now` are parameters. -/
def queue_command (db : CmdDB) (agent_id command_type : String)
    (payload : Option String) (now : Int) (cid : String) : CmdDB × AgentCommand :=
  let c : AgentCommand :=
    { id := cid, agent_id := agent_id, type := command_type, payload := payload,
      status := "pending", result := none, output := none,
      created_at := now, delivered_at := none, acked_at := none }
  (db ++ [c], c)

/-- `CommandDAO.list_pending`: all pending commands for an agent,
ordered by `created_at` (oldest first). -/
def list_pending (db : CmdDB) (agent_id : String) : List AgentCommand :=
  (db.filter (fun c => c.agent_id == agent_id && c.status == "pending")).insertionSort
    (fun a b => a.created_at ≤ b.created_at)

/-- The expired version of a command row: status `expired`, delivery
timestamp recorded, everything else (including `acked_at`) untouched. -/
def expiredRow (c : AgentCommand) (now : Int) : AgentCommand :=
  { c with status := "expired", delivered_at := some now }

/-- The delivered version of a command row: status `in_progress`, delivery
timestamp recorded, everything else untouched. -/
def inProgressRow (c : AgentCommand) (now : Int) : AgentCommand :=
  { c with status := "in_progress", delivered_at := some now }

/-- `CommandDAO.mark_expired`: batch-update rows whose id is in the list to
status `expired` with `delivered_at = now`. -/
def mark_expired (db : CmdDB) (ids : List String) (now : Int) : CmdDB :=
  db.map (fun c => if c.id ∈ ids then expiredRow c now else c)

/-- `CommandDAO.mark_in_progress`: batch-update rows whose id is in the list
to status `in_progress` with `delivered_at = now`. -/
def mark_in_progress (db : CmdDB) (ids : List String) (now : Int) : CmdDB :=
  db.map (fun c => if c.id ∈ ids then inProgressRow c now else c)

/-- The stale partition of `CommandService.poll_pending`: pending commands
whose age exceeds the TTL. -/
def pollExpired (ttl : Int) (db : CmdDB) (agent_id : String) (now : Int) :
    List AgentCommand :=
  (list_pending db agent_id).filter (fun c => ttl < now - c.created_at)

/-- The fresh partition of `CommandService.poll_pending`: pending commands
whose age is within the TTL. -/
def pollFresh (ttl : Int) (db : CmdDB) (agent_id : String) (now : Int) :
    List AgentCommand :=
  (list_pending db agent_id).filter (fun c => now - c.created_at ≤ ttl)

/-- `CommandService.poll_pending`: fetch pending commands for the agent,
mark stale ones expired, mark fresh ones in_progress, and return the fresh
ones in the minimal poll shape. -/
def poll_pending (ttl : Int) (db : CmdDB) (agent_id : String) (now : Int) :
    CmdDB × List PollDict :=
  let expired := pollExpired ttl db agent_id now
  let fresh := pollFresh ttl db agent_id now
  let db1 := mark_expired db (expired.map (·.id)) now
  let db2 := mark_in_progress db1 (fresh.map (·.id)) now
  (db2, fresh.map commandToPollDict)

/-- `CommandDAO.find_by_id`: first row with the given id. -/
def find_by_id (db : CmdDB) (command_id : String) : Option AgentCommand :=
  db.find? (fun c => c.id == command_id)

/-- The acked version of a command row: status acked, result stored,
`acked_at` stamped. -/
def ackedRow (c : AgentCommand) (result_json : String) (now : Int) :
    AgentCommand :=
  { c with status := "acked", result := some result_json, acked_at := some now }

/-- `CommandDAO.mark_acked` applied to the row found by
`CommandService.acknowledge`. -/
def mark_acked (db : CmdDB) (c : AgentCommand) (result_json : String)
    (now : Int) : CmdDB × AgentCommand :=
  let c' := ackedRow c result_json now
  (db.map (fun r => if r.id == c.id then c' else r), c')

/-- `CommandService.acknowledge`: store the ack result for a command. -/
def acknowledge (db : CmdDB) (agent_id command_id result_json : String)
    (now : Int) : Except CmdErr (CmdDB × AgentCommand) :=
  match find_by_id db command_id with
  | none => .error .notFound
  | some c =>
    if c.agent_id ≠ agent_id then .error .notFound
    else if c.status = "acked" ∨ c.status = "expired" then .error .alreadyAcked
    else .ok (mark_acked db c result_json now)

/-- A command row with `text` concatenated onto its output buffer (an
absent buffer initializes to the text). -/
def appendedRow (c : AgentCommand) (text : String) : AgentCommand :=
  { c with output := some ((c.output.getD "") ++ text) }

/-- `CommandDAO.append_output` applied to the row found by
`CommandService.append_output`. -/
def dao_append_output (db : CmdDB) (c : AgentCommand) (text : String) : CmdDB :=
  let c' := appendedRow c text
  db.map (fun r => if r.id == c.id then c' else r)

/-- `CommandService.append_output`: append output text to an in-progress
command. -/
def append_output (db : CmdDB) (agent_id command_id text : String) :
    Except CmdErr CmdDB :=
  match find_by_id db command_id with
  | none => .error .notFound
  | some c =>
    if c.agent_id ≠ agent_id then .error .notFound
    else if c.status ≠ "in_progress" then .error .notInProgress
    else .ok (dao_append_output db c text)

/-- `CommandDAO.list_by_agent` (used by `CommandService.list_commands`):
rows for the agent, optionally filtered by exact status, ordered by
`created_at`. -/
def list_by_agent (db : CmdDB) (agent_id : String) (status : Option String) :
    List AgentCommand :=
  ((db.filter (fun c => c.agent_id == agent_id)).filter
      (fun c => match status with
        | none => true
        | some s => c.status == s)).insertionSort
    (fun a b => a.created_at ≤ b.created_at)

/-- `CommandService.get_command`: one command by id, scoped to the agent. -/
def get_command (db : CmdDB) (agent_id command_id : String) :
    Except CmdErr AgentCommand :=
  match find_by_id db command_id with
  | none => .error .notFound
  | some c => if c.agent_id ≠ agent_id then .error .notFound else .ok c

/-- A string is blank when it trims to nothing, i.e. every character is
whitespace (Python `not s.strip()`). -/
def isBlank (s : String) : Bool :=
  s.data.all (fun c => c.isWhitespace)

/-- Modelled from the spec: the blank-type validation in front of
`CommandService.queue_command`.  The operator-facing command resource that
performs this check is absent from the source tree (only
`CommandService.queue_command` and the HTTP tests that expect a 400 for a
blank trimmed `type` are present); spec §4.4 states that `Enqueue` requires
`type` to be non-blank after trimming and §7 maps the violation to
`InvalidArgument`.  The insertion itself is `queue_command` from the source. -/
def enqueue (db : CmdDB) (agent_id command_type : String)
    (payload : Option String) (now : Int) (cid : String) :
    Except CmdErr (CmdDB × AgentCommand) :=
  if isBlank command_type then .error .invalidArgument
  else .ok (queue_command db agent_id command_type payload now cid)

/-- Row of the `agents` table (`faros_server.models.agent.Agent`). -/
structure Agent where
  id : String
  name : String
  robot_type : String
  owner_id : String
  created_at : Int
  last_seen_at : Option Int
  status : String
  last_health : Option String
deriving DecidableEq, Repr

/-- Row of the `api_keys` table (`faros_server.models.agent.ApiKey`).
Only the SHA-256 hash of a key is stored. -/
structure ApiKey where
  key_hash : String
  agent_id : String
  created_at : Int
  last_used : Option Int
  revoked : Bool
deriving DecidableEq, Repr

/-- Row of the `device_registrations` table
(`faros_server.models.agent.DeviceRegistration`). -/
structure DeviceRegistration where
  id : String
  device_code : String
  user_code : String
  agent_name : String
  robot_type : String
  status : String
  api_key_plaintext : Option String
  agent_id : Option String
  expires_at : Int
  created_at : Int
deriving DecidableEq, Repr

/-- The three tables owned by `AgentDAO`. -/
structure AgentDB where
  registrations : List DeviceRegistration
  agents : List Agent
  api_keys : List ApiKey
deriving DecidableEq, Repr

/-- Errors raised by `AgentService` as `ValueError`s and mapped by
`AgentResource` onto typed failures (NotFound / Expired / AlreadyUsed /
NotOwner / InvalidCredential). -/
inductive AgentErr where
  | notFound
  | expired
  | alreadyUsed
  | notOwner
  | invalidCredential
deriving DecidableEq, Repr

/-- Python truthiness of an optional string column (`if reg.api_key_plaintext
and reg.agent_id`): `None` and the empty string are falsy. -/
def optTruthy : Option String → Bool
  | none => false
  | some s => s ≠ ""

/-- Result of `AgentService.poll_device_flow`: either a bare status dict or
the completion dict carrying the api key and agent id. -/
inductive PollOutcome where
  | status (s : String)
  | complete (api_key agent_id : String)
deriving DecidableEq, Repr

/-- `AgentDAO.find_registration_by_device_code`. -/
def find_registration_by_device_code (db : AgentDB) (device_code : String) :
    Option DeviceRegistration :=
  db.registrations.find? (fun r => r.device_code == device_code)

/-- `AgentDAO.find_registration_by_user_code`. -/
def find_registration_by_user_code (db : AgentDB) (user_code : String) :
    Option DeviceRegistration :=
  db.registrations.find? (fun r => r.user_code == user_code)

/-- `AgentDAO.find_agent_by_name`. -/
def find_agent_by_name (db : AgentDB) (name : String) : Option Agent :=
  db.agents.find? (fun a => a.name == name)

/-- `AgentDAO.find_agent_by_id`. -/
def find_agent_by_id (db : AgentDB) (agent_id : String) : Option Agent :=
  db.agents.find? (fun a => a.id == agent_id)

/-- `AgentService.poll_device_flow`: read-only poll for device-flow
completion.  The expiry check (`now > expires_at`) is performed before any
inspection of the stored status. -/
def poll_device_flow (db : AgentDB) (device_code : String) (now : Int) :
    Except AgentErr PollOutcome :=
  match find_registration_by_device_code db device_code with
  | none => .error .notFound
  | some reg =>
    if reg.expires_at < now then .ok (.status "expired")
    else if reg.status = "pending" then .ok (.status "authorization_pending")
    else
      match reg.api_key_plaintext, reg.agent_id with
      | some k, some a =>
        if reg.status = "approved" ∧ k ≠ "" ∧ a ≠ "" then .ok (.complete k a)
        else .ok (.status reg.status)
      | _, _ => .ok (.status reg.status)

/-- Fresh agent row as built by `AgentDAO.create_agent` (status defaults to
`registered`, health and last-seen start empty). -/
def newAgentRow (fresh_id name robot_type owner_id : String) (now : Int) :
    Agent :=
  { id := fresh_id, name := name, robot_type := robot_type,
    owner_id := owner_id, created_at := now, last_seen_at := none,
    status := "registered", last_health := none }

/-- `AgentDAO.create_agent`: insert a new agent row.  The fresh UUID is a
parameter. -/
def create_agent (db : AgentDB) (fresh_id name robot_type owner_id : String)
    (now : Int) : AgentDB × Agent :=
  let a := newAgentRow fresh_id name robot_type owner_id now
  ({ db with agents := db.agents ++ [a] }, a)

/-- Fresh key row as built by `AgentDAO.create_api_key`: only the hash is
stored, `revoked` starts false. -/
def newKeyRow (key_hash agent_id : String) (now : Int) : ApiKey :=
  { key_hash := key_hash, agent_id := agent_id, created_at := now,
    last_used := none, revoked := false }

/-- `AgentDAO.create_api_key`: insert a new (hashed) key row. -/
def create_api_key (db : AgentDB) (key_hash agent_id : String) (now : Int) :
    AgentDB :=
  { db with api_keys := db.api_keys ++ [newKeyRow key_hash agent_id now] }

/-- The registration-row update at the end of `AgentService.approve_device`:
status approved, plaintext and agent id recorded. -/
def approveRegistration (reg : DeviceRegistration) (plaintext agent_id : String) :
    DeviceRegistration :=
  { reg with status := "approved", api_key_plaintext := some plaintext,
             agent_id := some agent_id }

/-- Row updater for Approve: the found registration row is replaced by its
approved version, all other rows are untouched. -/
def markApproved (reg : DeviceRegistration) (plaintext agent_id : String)
    (r : DeviceRegistration) : DeviceRegistration :=
  if r.id == reg.id then approveRegistration reg plaintext agent_id else r

/-- `AgentService.approve_device`: approve a pending registration; reuse or
create the agent by name, mint a key (the random plaintext and the fresh
agent UUID are parameters, the one-way digest is the function `hash`),
record plaintext and agent id on the registration row. -/
def approve_device (hash : String → String) (db : AgentDB)
    (user_code owner_id : String) (now : Int)
    (plaintext fresh_agent_id : String) :
    Except AgentErr (AgentDB × String × String) :=
  match find_registration_by_user_code db user_code with
  | none => .error .notFound
  | some reg =>
    if reg.expires_at < now then .error .expired
    else if reg.status ≠ "pending" then .error .alreadyUsed
    else
      let (db1, agent) :=
        match find_agent_by_name db reg.agent_name with
        | some existing => (db, existing)
        | none => create_agent db fresh_agent_id reg.agent_name
                    reg.robot_type owner_id now
      let db2 := create_api_key db1 (hash plaintext) agent.id now
      let regs := db2.registrations.map (markApproved reg plaintext agent.id)
      .ok ({ db2 with registrations := regs }, agent.id, agent.name)

/-- Row updater for Deny: the found registration row is set to `denied`,
all other rows are untouched. -/
def markDenied (reg r : DeviceRegistration) : DeviceRegistration :=
  if r.id == reg.id then { reg with status := "denied" } else r

/-- Modelled from the spec: `AgentService.deny_device` is absent from the
source tree (only its caller `AgentResource.deny_device` appears).  Per spec
§4.2, Deny is symmetric to Approve with the same NotFound / Expired /
AlreadyUsed failure modes but no agent or key side effects; it moves the
registration status to `denied`. -/
def deny_device (db : AgentDB) (user_code : String) (now : Int) :
    Except AgentErr (AgentDB × String) :=
  match find_registration_by_user_code db user_code with
  | none => .error .notFound
  | some reg =>
    if reg.expires_at < now then .error .expired
    else if reg.status ≠ "pending" then .error .alreadyUsed
    else
      let regs := db.registrations.map (markDenied reg)
      .ok ({ db with registrations := regs }, "denied")

/-- `AgentDAO.find_api_key_by_hash`: non-revoked key row with the given
hash, if any. -/
def find_api_key_by_hash (db : AgentDB) (key_hash : String) : Option ApiKey :=
  db.api_keys.find? (fun k => k.key_hash == key_hash && !k.revoked)

/-- `AgentDAO.update_agent_last_seen`: touch `last_seen_at`. -/
def update_agent_last_seen (db : AgentDB) (agent_id : String) (now : Int) :
    AgentDB :=
  let touched := db.agents.map
    (fun a => if a.id == agent_id then { a with last_seen_at := some now } else a)
  { db with agents := touched }

/-- `AgentService.resolve_api_key`: hash the plaintext, look up a
non-revoked key, fail if absent or if the agent row is missing, otherwise
touch `last_seen_at` and return the agent. -/
def resolve_api_key (hash : String → String) (db : AgentDB)
    (api_key : String) (now : Int) : Except AgentErr (AgentDB × Agent) :=
  match find_api_key_by_hash db (hash api_key) with
  | none => .error .invalidCredential
  | some row =>
    match find_agent_by_id db row.agent_id with
    | none => .error .invalidCredential
    | some agent => .ok (update_agent_last_seen db agent.id now, agent)

/-- `AgentDAO.revoke_api_keys_for_agent`: flip `revoked` on every
non-revoked key of the agent; the returned count is the number of rows
matched. -/
def revoke_api_keys_for_agent (db : AgentDB) (agent_id : String) :
    AgentDB × Nat :=
  let keys := db.api_keys.map
    (fun k => if k.agent_id == agent_id && !k.revoked
              then { k with revoked := true } else k)
  ({ db with api_keys := keys },
   (db.api_keys.filter (fun k => k.agent_id == agent_id && !k.revoked)).length)

/-- `AgentService.revoke_agent_key`: owner-checked revocation of all keys
for an agent. -/
def revoke_agent_key (db : AgentDB) (agent_id owner_id : String) :
    Except AgentErr (AgentDB × Nat) :=
  match find_agent_by_id db agent_id with
  | none => .error .notFound
  | some agent =>
    if agent.owner_id ≠ owner_id then .error .notOwner
    else .ok (revoke_api_keys_for_agent db agent_id)

/-! ### Generic instances and list lemmas -/

instance {ε α : Type} [DecidableEq ε] [DecidableEq α] :
    DecidableEq (Except ε α) := fun a b =>
  match a, b with
  | .error e, .error f =>
    decidable_of_iff (e = f) ⟨fun h => h ▸ rfl, fun h => by cases h; rfl⟩
  | .error _, .ok _ => isFalse (fun h => by cases h)
  | .ok _, .error _ => isFalse (fun h => by cases h)
  | .ok x, .ok y =>
    decidable_of_iff (x = y) ⟨fun h => h ▸ rfl, fun h => by cases h; rfl⟩

theorem find?_key_of_nodup {α β : Type} [DecidableEq β] (key : α → β) :
    ∀ {l : List α} {c : α}, (l.map key).Nodup → c ∈ l →
      l.find? (fun x => key x == key c) = some c := by
  intro l
  induction l with
  | nil => intro c _ hc; cases hc
  | cons a t ih =>
    intro c hnd hc
    simp only [List.map_cons, List.nodup_cons] at hnd
    by_cases h : key a = key c
    · have : a = c := by
        rcases List.mem_cons.mp hc with rfl | hct
        · rfl
        · exact absurd (h ▸ List.mem_map_of_mem key hct) hnd.1
      subst this
      simp [List.find?_cons, h]
    · have hct : c ∈ t := by
        rcases List.mem_cons.mp hc with rfl | hct
        · exact absurd rfl h
        · exact hct
      have : (key a == key c) = false := by simpa using h
      simp only [List.find?_cons, this]
      exact ih hnd.2 hct

theorem find?_map_of_fix {α : Type} {p : α → Bool} {f : α → α} :
    ∀ {l : List α} {x : α}, l.find? p = some x → f x = x →
      (∀ r ∈ l, p (f r) = p r) → (l.map f).find? p = some x := by
  intro l
  induction l with
  | nil => intro x hx; simp [List.find?] at hx
  | cons a t ih =>
    intro x hx hfix hpre
    by_cases h : p a
    · have hax : a = x := by simpa [List.find?_cons, h] using hx
      subst hax
      have : p (f a) = true := (hpre a (List.mem_cons_self a t)).trans h
      simp [List.find?_cons, this, hfix, h]
    · have h' : p a = false := by simpa using h
      have hx' : t.find? p = some x := by simpa [List.find?_cons, h'] using hx
      have : p (f a) = false := (hpre a (List.mem_cons_self a t)).trans h'
      simp only [List.map_cons, List.find?_cons, this]
      exact ih hx' hfix (fun r hr => hpre r (List.mem_cons_of_mem a hr))

/-! ### Ordering instances for the created_at order used by the queue -/

instance : IsTotal AgentCommand (fun a b => a.created_at ≤ b.created_at) :=
  ⟨fun a b => Int.le_total a.created_at b.created_at⟩

instance : IsTrans AgentCommand (fun a b => a.created_at ≤ b.created_at) :=
  ⟨fun _ _ _ hab hbc => le_trans hab hbc⟩

/-! ### Basic facts about the queue sweep -/

theorem mem_list_pending {db : CmdDB} {aid : String} {c : AgentCommand} :
    c ∈ list_pending db aid ↔ c ∈ db ∧ c.agent_id = aid ∧ c.status = "pending" := by
  simp [list_pending, List.mem_insertionSort, List.mem_filter, and_assoc]

theorem sorted_list_pending (db : CmdDB) (aid : String) :
    List.Sorted (fun a b => a.created_at ≤ b.created_at) (list_pending db aid) :=
  List.sorted_insertionSort _ _

theorem mem_pollFresh {ttl : Int} {db : CmdDB} {aid : String} {now : Int}
    {c : AgentCommand} :
    c ∈ pollFresh ttl db aid now ↔
      c ∈ list_pending db aid ∧ now - c.created_at ≤ ttl := by
  simp [pollFresh, List.mem_filter]

theorem mem_pollExpired {ttl : Int} {db : CmdDB} {aid : String} {now : Int}
    {c : AgentCommand} :
    c ∈ pollExpired ttl db aid now ↔
      c ∈ list_pending db aid ∧ ttl < now - c.created_at := by
  simp [pollExpired, List.mem_filter]

theorem sorted_pollFresh (ttl : Int) (db : CmdDB) (aid : String) (now : Int) :
    List.Sorted (fun a b => a.created_at ≤ b.created_at)
      (pollFresh ttl db aid now) :=
  List.Pairwise.filter _ (sorted_list_pending db aid)

/-! ### Inversion helpers for the agent directory -/

theorem revoke_agent_key_ok_inv {db : AgentDB} {aid owner : String}
    {db' : AgentDB} {n : Nat}
    (h : revoke_agent_key db aid owner = .ok (db', n)) :
    db' = (revoke_api_keys_for_agent db aid).1 ∧
      n = (db.api_keys.filter (fun k => k.agent_id == aid && !k.revoked)).length := by
  unfold revoke_agent_key at h
  cases hfind : find_agent_by_id db aid with
  | none => rw [hfind] at h; cases h
  | some agent =>
    rw [hfind] at h
    by_cases howner : agent.owner_id = owner
    · simp only [howner, ne_eq, not_true_eq_false, if_false] at h
      cases h
      exact ⟨rfl, rfl⟩
    · simp only [ne_eq, howner, not_false_eq_true, if_true] at h
      cases h

/-! ### Claim theorems -/

/-- C9.  `Enqueue` fails with `InvalidArgument` when the command type is
blank after trimming; for every non-blank type it inserts a command with
status `pending` recording the type and (possibly absent) payload, with
`delivered_at` and `acked_at` unset. -/
theorem enqueue_blank_type_spec (db : CmdDB) (aid ty : String)
    (pl : Option String) (now : Int) (cid : String) :
    (isBlank ty = true → enqueue db aid ty pl now cid = .error .invalidArgument)
    ∧ (isBlank ty = false →
        enqueue db aid ty pl now cid =
          .ok (db ++ [{ id := cid, agent_id := aid, type := ty, payload := pl,
                        status := "pending", result := none, output := none,
                        created_at := now, delivered_at := none, acked_at := none }],
               { id := cid, agent_id := aid, type := ty, payload := pl,
                 status := "pending", result := none, output := none,
                 created_at := now, delivered_at := none, acked_at := none })) := by
  constructor <;> intro h <;> simp [enqueue, queue_command, h]

/-- Witness for C9 at concrete inputs: a blank (all-whitespace) type is
rejected and a non-blank one is inserted pending. -/
theorem enqueue_blank_type_spec_witness :
    enqueue [] "a" "  " none 0 "c1" = .error .invalidArgument
    ∧ enqueue [] "a" "Stop" none 0 "c2" =
        .ok ([{ id := "c2", agent_id := "a", type := "Stop", payload := none,
                status := "pending", result := none, output := none,
                created_at := 0, delivered_at := none, acked_at := none }],
             { id := "c2", agent_id := "a", type := "Stop", payload := none,
               status := "pending", result := none, output := none,
               created_at := 0, delivered_at := none, acked_at := none }) :=
  ⟨(enqueue_blank_type_spec [] "a" "  " none 0 "c1").1 (by decide),
   (enqueue_blank_type_spec [] "a" "Stop" none 0 "c2").2 (by decide)⟩

/-- C7.  `RevokeAllKeys` fails `NotFound` when the agent is absent,
`NotOwner` when the requester is not the owner; otherwise it flips
`revoked` on exactly the agent's non-revoked keys, returns their count
(a natural number, hence never negative), leaves agents and registrations
untouched, and an immediately repeated call returns 0 and changes nothing. -/
theorem revoke_all_keys_spec (db : AgentDB) (aid owner : String) :
    (find_agent_by_id db aid = none →
      revoke_agent_key db aid owner = .error .notFound)
    ∧ (∀ agent, find_agent_by_id db aid = some agent → agent.owner_id ≠ owner →
        revoke_agent_key db aid owner = .error .notOwner)
    ∧ (∀ agent, find_agent_by_id db aid = some agent → agent.owner_id = owner →
        revoke_agent_key db aid owner =
            .ok ((revoke_api_keys_for_agent db aid).1, (db.api_keys.filter
                (fun k => k.agent_id == aid && !k.revoked)).length)
          ∧ (revoke_api_keys_for_agent db aid).1.api_keys = db.api_keys.map
              (fun k => if k.agent_id == aid && !k.revoked
                        then { k with revoked := true } else k)
          ∧ (revoke_api_keys_for_agent db aid).1.agents = db.agents
          ∧ (revoke_api_keys_for_agent db aid).1.registrations = db.registrations
          ∧ revoke_agent_key (revoke_api_keys_for_agent db aid).1 aid owner =
              .ok ((revoke_api_keys_for_agent db aid).1, 0)) := by
  refine ⟨fun hnone => ?_, fun agent hfind howner => ?_, fun agent hfind howner => ?_⟩
  · simp [revoke_agent_key, hnone]
  · simp [revoke_agent_key, hfind, howner]
  · refine ⟨?_, rfl, rfl, rfl, ?_⟩
    · simp [revoke_agent_key, hfind, howner, revoke_api_keys_for_agent]
    · have hagents : (revoke_api_keys_for_agent db aid).1.agents = db.agents := rfl
      have hfind' : find_agent_by_id (revoke_api_keys_for_agent db aid).1 aid =
          some agent := by
        simpa [find_agent_by_id, hagents] using hfind
      have hflip : ∀ k ∈ (revoke_api_keys_for_agent db aid).1.api_keys,
          (k.agent_id == aid && !k.revoked) = false := by
        intro k hk
        simp only [revoke_api_keys_for_agent, List.mem_map] at hk
        obtain ⟨k0, _, rfl⟩ := hk
        by_cases h0 : (k0.agent_id == aid && !k0.revoked) = true
        · simp [h0]
        · rw [if_neg h0]
          simpa using h0
      have hmapid : (revoke_api_keys_for_agent db aid).1.api_keys.map
            (fun k => if k.agent_id == aid && !k.revoked
                      then { k with revoked := true } else k) =
          (revoke_api_keys_for_agent db aid).1.api_keys := by
        have := List.map_congr_left
          (l := (revoke_api_keys_for_agent db aid).1.api_keys)
          (f := fun k => if k.agent_id == aid && !k.revoked
                         then { k with revoked := true } else k)
          (g := id)
          (fun k hk => by simp [hflip k hk])
        rw [this, List.map_id]
      have hempty : (revoke_api_keys_for_agent db aid).1.api_keys.filter
          (fun k => k.agent_id == aid && !k.revoked) = [] := by
        rw [List.filter_eq_nil_iff]
        intro k hk
        simp [hflip k hk]
      have hpair : revoke_api_keys_for_agent
          (revoke_api_keys_for_agent db aid).1 aid =
          ((revoke_api_keys_for_agent db aid).1, 0) := by
        unfold revoke_api_keys_for_agent
        refine Prod.ext ?_ ?_
        · show ({ (revoke_api_keys_for_agent db aid).1 with
              api_keys := (revoke_api_keys_for_agent db aid).1.api_keys.map _ } :
              AgentDB) = _
          rw [hmapid]
          rfl
        · show ((revoke_api_keys_for_agent db aid).1.api_keys.filter _).length = 0
          rw [hempty]
          rfl
      simp [revoke_agent_key, hfind', howner, hpair]

/-- Concrete one-agent, one-key directory used by witnesses. -/
def wAgent : Agent :=
  { id := "A", name := "bot", robot_type := "px4", owner_id := "O",
    created_at := 0, last_seen_at := none, status := "registered",
    last_health := none }

/-- Concrete directory state with one agent and one live key. -/
def wDb : AgentDB :=
  { registrations := [],
    agents := [wAgent],
    api_keys := [{ key_hash := "h1", agent_id := "A", created_at := 0,
                   last_used := none, revoked := false }] }

/-- Witness for C7: revoking the one live key of the concrete agent
succeeds with count 1 and the repeated call returns 0 unchanged. -/
theorem revoke_all_keys_spec_witness :
    revoke_agent_key wDb "A" "O" =
        .ok ((revoke_api_keys_for_agent wDb "A").1, (wDb.api_keys.filter
            (fun k => k.agent_id == "A" && !k.revoked)).length)
      ∧ (revoke_api_keys_for_agent wDb "A").1.api_keys = wDb.api_keys.map
          (fun k => if k.agent_id == "A" && !k.revoked
                    then { k with revoked := true } else k)
      ∧ (revoke_api_keys_for_agent wDb "A").1.agents = wDb.agents
      ∧ (revoke_api_keys_for_agent wDb "A").1.registrations = wDb.registrations
      ∧ revoke_agent_key (revoke_api_keys_for_agent wDb "A").1 "A" "O" =
          .ok ((revoke_api_keys_for_agent wDb "A").1, 0) :=
  (revoke_all_keys_spec wDb "A" "O").2.2 wAgent (by decide) (by decide)

/-- C8.  `ResolveKey` fails with `InvalidCredential` exactly when the
one-way hash of the input matches no non-revoked `ApiKey` row, or when the
matching row's agent is missing (an orphaned key is an error); on success
it touches `last_seen_at` and returns the agent.  After a successful
`RevokeAllKeys` for an agent, resolving any key whose hash points only at
that agent's rows fails. -/
theorem resolve_key_spec (hash : String → String) (db : AgentDB)
    (plaintext : String) (now : Int) :
    ((∀ k ∈ db.api_keys, k.key_hash = hash plaintext → k.revoked = true) →
       resolve_api_key hash db plaintext now = .error .invalidCredential)
    ∧ (∀ row, find_api_key_by_hash db (hash plaintext) = some row →
        find_agent_by_id db row.agent_id = none →
        resolve_api_key hash db plaintext now = .error .invalidCredential)
    ∧ (resolve_api_key hash db plaintext now = .error .invalidCredential →
        (∀ k ∈ db.api_keys, k.key_hash = hash plaintext → k.revoked = true)
        ∨ ∃ row, find_api_key_by_hash db (hash plaintext) = some row
            ∧ find_agent_by_id db row.agent_id = none)
    ∧ (∀ row agent, find_api_key_by_hash db (hash plaintext) = some row →
        find_agent_by_id db row.agent_id = some agent →
        resolve_api_key hash db plaintext now =
          .ok (update_agent_last_seen db agent.id now, agent))
    ∧ (∀ aid owner db' n, revoke_agent_key db aid owner = .ok (db', n) →
        (∀ k ∈ db.api_keys, k.key_hash = hash plaintext → k.agent_id = aid) →
        resolve_api_key hash db' plaintext now = .error .invalidCredential) := by
  have hnone_of_all : ∀ (adb : AgentDB),
      (∀ k ∈ adb.api_keys, k.key_hash = hash plaintext → k.revoked = true) →
      find_api_key_by_hash adb (hash plaintext) = none := by
    intro adb hall
    rw [find_api_key_by_hash, List.find?_eq_none]
    intro k hk
    by_cases hh : k.key_hash = hash plaintext
    · simp [hall k hk hh]
    · simp [hh]
  refine ⟨fun hall => ?_, fun row hrow hag => ?_, fun herr => ?_,
    fun row agent hrow hag => ?_, fun aid owner db' n hrev hkeys => ?_⟩
  · simp [resolve_api_key, hnone_of_all db hall]
  · simp [resolve_api_key, hrow, hag]
  · cases hfind : find_api_key_by_hash db (hash plaintext) with
    | none =>
      left
      rw [find_api_key_by_hash, List.find?_eq_none] at hfind
      intro k hk hh
      have := hfind k hk
      simpa [hh] using this
    | some row =>
      cases hag : find_agent_by_id db row.agent_id with
      | none => exact Or.inr ⟨row, rfl, hag⟩
      | some agent => simp [resolve_api_key, hfind, hag] at herr
  · simp [resolve_api_key, hrow, hag]
  · obtain ⟨hdb', -⟩ := revoke_agent_key_ok_inv hrev
    have hall' : ∀ k ∈ db'.api_keys, k.key_hash = hash plaintext →
        k.revoked = true := by
      intro k' hk' hh
      rw [hdb'] at hk'
      simp only [revoke_api_keys_for_agent, List.mem_map] at hk'
      obtain ⟨k0, hk0, rfl⟩ := hk'
      by_cases h0 : (k0.agent_id == aid && !k0.revoked) = true
      · simp [h0]
      · rw [if_neg h0] at hh ⊢
        have haid : k0.agent_id = aid := hkeys k0 hk0 hh
        simpa [haid] using h0
    simp [resolve_api_key, hnone_of_all db' hall']

/-- Witness for C8: in the concrete directory, the live key resolves to the
agent, and after revocation the same key fails with `InvalidCredential`. -/
theorem resolve_key_spec_witness :
    resolve_api_key (fun _ => "h1") wDb "fk_secret" 7 =
        .ok (update_agent_last_seen wDb "A" 7, wAgent)
    ∧ resolve_api_key (fun _ => "h1")
        (revoke_api_keys_for_agent wDb "A").1 "fk_secret" 7 =
        .error .invalidCredential := by
  constructor
  · exact (resolve_key_spec (fun _ => "h1") wDb "fk_secret" 7).2.2.2.1
      { key_hash := "h1", agent_id := "A", created_at := 0,
        last_used := none, revoked := false } wAgent (by decide) (by decide)
  · exact (resolve_key_spec (fun _ => "h1") wDb "fk_secret" 7).2.2.2.2
      "A" "O" (revoke_api_keys_for_agent wDb "A").1 1 (by decide) (by decide)

/-- C4.  `Deny` (modelled from the spec, see `deny_device`) on a pending,
unexpired registration moves its status to `denied`, touching neither
agents nor api keys; it fails `NotFound` for an unknown user code,
`Expired` past the TTL, and `AlreadyUsed` when the status is not pending. -/
theorem deny_device_spec (db : AgentDB) (uc : String) (now : Int) :
    (find_registration_by_user_code db uc = none →
       deny_device db uc now = .error .notFound)
    ∧ (∀ reg, find_registration_by_user_code db uc = some reg →
        reg.expires_at < now → deny_device db uc now = .error .expired)
    ∧ (∀ reg, find_registration_by_user_code db uc = some reg →
        ¬reg.expires_at < now → reg.status ≠ "pending" →
        deny_device db uc now = .error .alreadyUsed)
    ∧ (∀ reg, find_registration_by_user_code db uc = some reg →
        ¬reg.expires_at < now → reg.status = "pending" →
        deny_device db uc now =
            .ok ({ db with registrations := db.registrations.map (markDenied reg) },
                 "denied")
          ∧ ({ db with registrations := db.registrations.map (markDenied reg) } :
              AgentDB).agents = db.agents
          ∧ ({ db with registrations := db.registrations.map (markDenied reg) } :
              AgentDB).api_keys = db.api_keys) := by
  refine ⟨fun hnone => ?_, fun reg hfind hexp => ?_,
    fun reg hfind hexp hst => ?_, fun reg hfind hexp hst => ⟨?_, rfl, rfl⟩⟩
  · simp [deny_device, hnone]
  · simp [deny_device, hfind, hexp]
  · simp [deny_device, hfind, hexp, hst]
  · simp [deny_device, hfind, hexp, hst]

/-- Pending unexpired registration row used by witnesses. -/
def wPendingReg : DeviceRegistration :=
  { id := "r1", device_code := "dc", user_code := "UC-1",
    agent_name := "bot", robot_type := "px4", status := "pending",
    api_key_plaintext := none, agent_id := none,
    expires_at := 900, created_at := 0 }

/-- Registry holding only the pending registration. -/
def wPendingDb : AgentDB :=
  { registrations := [wPendingReg], agents := [], api_keys := [] }

/-- Witness for C4: denying the concrete pending registration succeeds and
leaves agents and keys untouched; an unknown code is NotFound. -/
theorem deny_device_spec_witness :
    deny_device wPendingDb "nope" 5 = .error .notFound
    ∧ deny_device wPendingDb "UC-1" 5 =
        .ok ({ wPendingDb with
                registrations := wPendingDb.registrations.map (markDenied wPendingReg) },
             "denied") :=
  ⟨(deny_device_spec wPendingDb "nope" 5).1 (by decide),
   ((deny_device_spec wPendingDb "UC-1" 5).2.2.2 wPendingReg
      (by decide) (by decide) (by decide)).1⟩

/-- Approved registration row past its TTL, with plaintext key and agent id
still recorded: the concrete input refuting C5. -/
def expiredApprovedReg : DeviceRegistration :=
  { id := "r2", device_code := "dc2", user_code := "UC-2",
    agent_name := "bot", robot_type := "px4", status := "approved",
    api_key_plaintext := some "fk_k", agent_id := some "A",
    expires_at := 10, created_at := 0 }

/-- Registry holding only the expired approved registration. -/
def expiredApprovedDb : AgentDB :=
  { registrations := [expiredApprovedReg], agents := [], api_keys := [] }

/-- Counterexample to C5 as stated: the stored registration is `approved`
with `api_key_plaintext` and `agent_id` set, yet polling after `expires_at`
returns the derived `expired` status instead of the completion payload —
the expiry check in `AgentService.poll_device_flow` runs before the status
inspection, for every stored status. -/
theorem poll_after_expiry_cex :
    find_registration_by_device_code expiredApprovedDb "dc2" =
        some expiredApprovedReg
    ∧ expiredApprovedReg.status = "approved"
    ∧ expiredApprovedReg.api_key_plaintext = some "fk_k"
    ∧ expiredApprovedReg.agent_id = some "A"
    ∧ (11 : Int) > expiredApprovedReg.expires_at
    ∧ poll_device_flow expiredApprovedDb "dc2" 11 = .ok (.status "expired") := by
  refine ⟨by decide, by decide, by decide, by decide, by decide, by decide⟩

/-- C5 (amended).  `Poll` fails `NotFound` exactly for an unknown device
code; any registration past its `expires_at` — regardless of stored status,
including `approved` — yields the derived `expired` result; an approved
registration with non-empty `api_key_plaintext` and `agent_id` polled at or
before `expires_at` returns `complete` with the key and agent id; any other
stored status is returned verbatim. -/
theorem poll_device_flow_spec (db : AgentDB) (dc : String) (now : Int) :
    (poll_device_flow db dc now = .error .notFound ↔
       find_registration_by_device_code db dc = none)
    ∧ (∀ reg, find_registration_by_device_code db dc = some reg →
        reg.expires_at < now → poll_device_flow db dc now = .ok (.status "expired"))
    ∧ (∀ reg k a, find_registration_by_device_code db dc = some reg →
        ¬reg.expires_at < now → reg.status = "approved" →
        reg.api_key_plaintext = some k → k ≠ "" →
        reg.agent_id = some a → a ≠ "" →
        poll_device_flow db dc now = .ok (.complete k a))
    ∧ (∀ reg, find_registration_by_device_code db dc = some reg →
        ¬reg.expires_at < now → reg.status ≠ "pending" →
        (reg.status = "approved" → optTruthy reg.api_key_plaintext = false ∨
          optTruthy reg.agent_id = false) →
        poll_device_flow db dc now = .ok (.status reg.status)) := by
  refine ⟨?_, fun reg hfind hexp => ?_,
    fun reg k a hfind hexp hst hk hk0 ha ha0 => ?_,
    fun reg hfind hexp hst hverb => ?_⟩
  · constructor
    · intro herr
      cases hfind : find_registration_by_device_code db dc with
      | none => rfl
      | some reg =>
        exfalso
        rw [poll_device_flow, hfind] at herr
        by_cases hexp : reg.expires_at < now
        · simp [hexp] at herr
        · by_cases hpend : reg.status = "pending"
          · simp [hexp, hpend] at herr
          · cases hk : reg.api_key_plaintext <;> cases ha : reg.agent_id <;>
              simp only [hexp, hpend, hk, ha, if_false, if_neg] at herr <;>
              [skip; skip; skip; split at herr] <;> simp at herr
    · intro hnone
      simp [poll_device_flow, hnone]
  · simp [poll_device_flow, hfind, hexp]
  · have hpend : reg.status ≠ "pending" := by rw [hst]; decide
    simp [poll_device_flow, hfind, hexp, hpend, hk, ha, hst, hk0, ha0]
  · rw [poll_device_flow, hfind]
    cases hk : reg.api_key_plaintext with
    | none => simp [hexp, hst, hk]
    | some k =>
      cases ha : reg.agent_id with
      | none => simp [hexp, hst, hk, ha]
      | some a =>
        by_cases happ : reg.status = "approved"
        · rcases hverb happ with hv | hv
          · have hk0 : k = "" := by rw [hk] at hv; simpa [optTruthy] using hv
            simp [hexp, hst, hk, ha, hk0]
          · have ha0 : a = "" := by rw [ha] at hv; simpa [optTruthy] using hv
            simp [hexp, hst, hk, ha, ha0]
        · simp [hexp, hst, hk, ha, happ]

/-- Approved unexpired registration row for witnesses. -/
def wApprovedReg : DeviceRegistration :=
  { id := "r3", device_code := "dc3", user_code := "UC-3",
    agent_name := "bot", robot_type := "px4", status := "approved",
    api_key_plaintext := some "fk_k", agent_id := some "A",
    expires_at := 10, created_at := 0 }

/-- Registry holding only the approved unexpired registration. -/
def wApprovedDb : AgentDB :=
  { registrations := [wApprovedReg], agents := [], api_keys := [] }

/-- Witness for C5 (amended) at concrete inputs: the expired approved
registration polls as `expired`, and the unexpired approved one polls as
`complete` with its key and agent id. -/
theorem poll_device_flow_spec_witness :
    poll_device_flow expiredApprovedDb "dc2" 11 = .ok (.status "expired")
    ∧ poll_device_flow wApprovedDb "dc3" 3 = .ok (.complete "fk_k" "A") :=
  ⟨(poll_device_flow_spec expiredApprovedDb "dc2" 11).2.1 expiredApprovedReg
      (by decide) (by decide),
   (poll_device_flow_spec wApprovedDb "dc3" 3).2.2.1 wApprovedReg "fk_k" "A"
      (by decide) (by decide) (by decide) (by decide) (by decide) (by decide)
      (by decide)⟩

/-- C10.  `Poll` performs no writes: the completion payload of an approved,
unexpired registration is stable — polling the same store at any instant at
or before `expires_at` returns the same `complete` result with the same api
key and agent id, and the stored plaintext is never cleared by polling. -/
theorem poll_device_flow_stable (db : AgentDB) (dc : String) (t1 t2 : Int)
    (reg : DeviceRegistration) (k a : String)
    (hfind : find_registration_by_device_code db dc = some reg)
    (hst : reg.status = "approved")
    (hk : reg.api_key_plaintext = some k) (hk0 : k ≠ "")
    (ha : reg.agent_id = some a) (ha0 : a ≠ "")
    (h1 : ¬reg.expires_at < t1) (h2 : ¬reg.expires_at < t2) :
    poll_device_flow db dc t1 = .ok (.complete k a)
    ∧ poll_device_flow db dc t2 = poll_device_flow db dc t1
    ∧ (find_registration_by_device_code db dc).map (·.api_key_plaintext) =
        some (some k) := by
  have e1 := (poll_device_flow_spec db dc t1).2.2.1 reg k a hfind h1 hst hk hk0 ha ha0
  have e2 := (poll_device_flow_spec db dc t2).2.2.1 reg k a hfind h2 hst hk hk0 ha ha0
  refine ⟨e1, e2.trans e1.symm, ?_⟩
  rw [hfind]
  simp [hk]

/-- Witness for C10 on a concrete approved registration: polls at two
different pre-expiry instants return the same completion payload. -/
theorem poll_device_flow_stable_witness :
    poll_device_flow wApprovedDb "dc3" 3 = .ok (.complete "fk_k" "A")
    ∧ poll_device_flow wApprovedDb "dc3" 9 = poll_device_flow wApprovedDb "dc3" 3 := by
  have h := poll_device_flow_stable wApprovedDb "dc3" 3 9 wApprovedReg "fk_k" "A"
    (by decide) (by decide) (by decide) (by decide) (by decide) (by decide)
    (by decide) (by decide)
  exact ⟨h.1, h.2.1⟩

/-- C2.  `Approve` on a pending, unexpired registration reuses the agent
with the registration's name when one exists — leaving the agents table
unchanged, so `robot_type` and `owner_id` are not overwritten — and creates
it otherwise; in both cases a fresh key is minted and stored only as its
hash, the plaintext and agent id are recorded on the registration row, and
the status becomes approved (one unit of work, embodied by the single state
transition); two enrollments with the same agent name, both approved,
return the same agent id. -/
theorem approve_device_spec (hash : String → String) (db : AgentDB)
    (now1 : Int) (uc1 owner1 pt1 gid : String) :
    (∀ reg a, find_registration_by_user_code db uc1 = some reg →
        ¬reg.expires_at < now1 → reg.status = "pending" →
        find_agent_by_name db reg.agent_name = some a →
        approve_device hash db uc1 owner1 now1 pt1 gid =
          .ok ({ registrations := db.registrations.map (markApproved reg pt1 a.id),
                 agents := db.agents,
                 api_keys := db.api_keys ++ [newKeyRow (hash pt1) a.id now1] },
               a.id, a.name))
    ∧ (∀ reg, find_registration_by_user_code db uc1 = some reg →
        ¬reg.expires_at < now1 → reg.status = "pending" →
        find_agent_by_name db reg.agent_name = none →
        approve_device hash db uc1 owner1 now1 pt1 gid =
          .ok ({ registrations := db.registrations.map (markApproved reg pt1 gid),
                 agents := db.agents ++
                   [newAgentRow gid reg.agent_name reg.robot_type owner1 now1],
                 api_keys := db.api_keys ++ [newKeyRow (hash pt1) gid now1] },
               gid, reg.agent_name))
    ∧ (∀ reg1 reg2 db1 uc2 owner2 now2 pt2 gid2,
        (db.registrations.map (·.id)).Nodup →
        find_registration_by_user_code db uc1 = some reg1 →
        ¬reg1.expires_at < now1 → reg1.status = "pending" →
        find_agent_by_name db reg1.agent_name = none →
        approve_device hash db uc1 owner1 now1 pt1 gid =
          .ok (db1, gid, reg1.agent_name) →
        find_registration_by_user_code db uc2 = some reg2 →
        reg2.id ≠ reg1.id → reg2.agent_name = reg1.agent_name →
        ¬reg2.expires_at < now2 → reg2.status = "pending" →
        approve_device hash db1 uc2 owner2 now2 pt2 gid2 =
          .ok ({ registrations := db1.registrations.map (markApproved reg2 pt2 gid),
                 agents := db1.agents,
                 api_keys := db1.api_keys ++ [newKeyRow (hash pt2) gid now2] },
               gid, reg1.agent_name)) := by
  have hreuse : ∀ (adb : AgentDB) (now : Int) (uc owner pt g : String)
      (reg : DeviceRegistration) (a : Agent),
      find_registration_by_user_code adb uc = some reg →
      ¬reg.expires_at < now → reg.status = "pending" →
      find_agent_by_name adb reg.agent_name = some a →
      approve_device hash adb uc owner now pt g =
        .ok ({ registrations := adb.registrations.map (markApproved reg pt a.id),
               agents := adb.agents,
               api_keys := adb.api_keys ++ [newKeyRow (hash pt) a.id now] },
             a.id, a.name) := by
    intro adb now uc owner pt g reg a hfind hexp hpend hagent
    simp [approve_device, hfind, hexp, hpend, hagent, create_api_key]
  have hcreate : ∀ (adb : AgentDB) (now : Int) (uc owner pt g : String)
      (reg : DeviceRegistration),
      find_registration_by_user_code adb uc = some reg →
      ¬reg.expires_at < now → reg.status = "pending" →
      find_agent_by_name adb reg.agent_name = none →
      approve_device hash adb uc owner now pt g =
        .ok ({ registrations := adb.registrations.map (markApproved reg pt g),
               agents := adb.agents ++
                 [newAgentRow g reg.agent_name reg.robot_type owner now],
               api_keys := adb.api_keys ++ [newKeyRow (hash pt) g now] },
             g, reg.agent_name) := by
    intro adb now uc owner pt g reg hfind hexp hpend hagent
    simp [approve_device, hfind, hexp, hpend, hagent, create_agent,
      create_api_key, newAgentRow]
  refine ⟨fun reg a hf he hp ha => hreuse db now1 uc1 owner1 pt1 gid reg a hf he hp ha,
    fun reg hf he hp ha => hcreate db now1 uc1 owner1 pt1 gid reg hf he hp ha,
    ?_⟩
  intro reg1 reg2 db1 uc2 owner2 now2 pt2 gid2 hnd hf1 he1 hp1 hag1 happ hf2
    hne hname he2 hp2
  have hdb1 : db1 =
      { registrations := db.registrations.map (markApproved reg1 pt1 gid),
        agents := db.agents ++
          [newAgentRow gid reg1.agent_name reg1.robot_type owner1 now1],
        api_keys := db.api_keys ++ [newKeyRow (hash pt1) gid now1] } := by
    have h2 := hcreate db now1 uc1 owner1 pt1 gid reg1 hf1 he1 hp1 hag1
    rw [happ] at h2
    exact (Prod.ext_iff.mp (Except.ok.inj h2)).1
  have hreg1mem : reg1 ∈ db.registrations :=
    List.mem_of_find?_eq_some hf1
  have hfind2' : find_registration_by_user_code db1 uc2 = some reg2 := by
    rw [hdb1]
    show (db.registrations.map (markApproved reg1 pt1 gid)).find?
        (fun r => r.user_code == uc2) = some reg2
    refine find?_map_of_fix hf2 ?_ ?_
    · simp [markApproved, hne]
    · intro r hr
      by_cases hid : r.id = reg1.id
      · have : r = reg1 :=
          List.inj_on_of_nodup_map hnd hr hreg1mem hid
        subst this
        simp [markApproved, approveRegistration]
      · simp [markApproved, hid]
  have hagent2 : find_agent_by_name db1 reg2.agent_name =
      some (newAgentRow gid reg1.agent_name reg1.robot_type owner1 now1) := by
    rw [hdb1]
    show (db.agents ++ [newAgentRow gid reg1.agent_name reg1.robot_type owner1 now1]).find?
        (fun a => a.name == reg2.agent_name) = some _
    rw [List.find?_append]
    have hnone : db.agents.find? (fun a => a.name == reg2.agent_name) = none := by
      rw [hname]
      exact hag1
    rw [hnone]
    simp [List.find?_cons, newAgentRow, hname]
  have := hreuse db1 now2 uc2 owner2 pt2 gid2 reg2
    (newAgentRow gid reg1.agent_name reg1.robot_type owner1 now1)
    hfind2' he2 hp2 hagent2
  simpa [newAgentRow] using this

/-- First pending enrollment attempt for agent name `bot2`. -/
def wReg1 : DeviceRegistration :=
  { id := "e1", device_code := "d1", user_code := "U1",
    agent_name := "bot2", robot_type := "px4", status := "pending",
    api_key_plaintext := none, agent_id := none,
    expires_at := 900, created_at := 0 }

/-- Second pending enrollment attempt for the same agent name `bot2`. -/
def wReg2 : DeviceRegistration :=
  { id := "e2", device_code := "d2", user_code := "U2",
    agent_name := "bot2", robot_type := "vtol", status := "pending",
    api_key_plaintext := none, agent_id := none,
    expires_at := 900, created_at := 1 }

/-- Registry holding the two pending enrollments and no agents. -/
def wEnrollDb : AgentDB :=
  { registrations := [wReg1, wReg2], agents := [], api_keys := [] }

/-- State after the first approval: one agent `g1`, one hashed key, first
registration approved. -/
def wEnrollDb1 : AgentDB :=
  { registrations := wEnrollDb.registrations.map (markApproved wReg1 "pt1" "g1"),
    agents := wEnrollDb.agents ++ [newAgentRow "g1" "bot2" "px4" "op1" 5],
    api_keys := wEnrollDb.api_keys ++ [newKeyRow "pt1" "g1" 5] }

/-- Witness for C2: approving the two concrete enrollments with the same
agent name yields the same agent id `g1` twice, and the second approval
leaves the agents table unchanged. -/
theorem approve_device_spec_witness :
    approve_device (fun s => s) wEnrollDb "U1" "op1" 5 "pt1" "g1" =
        .ok (wEnrollDb1, "g1", "bot2")
    ∧ approve_device (fun s => s) wEnrollDb1 "U2" "op2" 6 "pt2" "g2" =
        .ok ({ registrations := wEnrollDb1.registrations.map
                 (markApproved wReg2 "pt2" "g1"),
               agents := wEnrollDb1.agents,
               api_keys := wEnrollDb1.api_keys ++ [newKeyRow "pt2" "g1" 6] },
             "g1", "bot2") := by
  constructor
  · exact (approve_device_spec (fun s => s) wEnrollDb 5 "U1" "op1" "pt1" "g1").2.1
      wReg1 (by decide) (by decide) (by decide) (by decide)
  · exact (approve_device_spec (fun s => s) wEnrollDb 5 "U1" "op1" "pt1" "g1").2.2
      wReg1 wReg2 wEnrollDb1 "U2" "op2" 6 "pt2" "g2"
      (by decide) (by decide) (by decide) (by decide) (by decide) (by decide)
      (by decide) (by decide) (by decide) (by decide) (by decide)

/-! ### The command queue as a transition system -/

/-- One mutating operation of the command queue: enqueue with a fresh UUID,
a delivery sweep, a successful ack, or a successful output append.
Reads (`list_commands`, `get_command`) do not change the store. -/
inductive QStep (ttl : Int) : CmdDB → CmdDB → Prop
  | enqueue (db : CmdDB) (aid ty : String) (pl : Option String) (now : Int)
      (cid : String) (hfresh : cid ∉ db.map (·.id)) :
      QStep ttl db (queue_command db aid ty pl now cid).1
  | poll (db : CmdDB) (aid : String) (now : Int) :
      QStep ttl db (poll_pending ttl db aid now).1
  | ack (db : CmdDB) (aid cid res : String) (now : Int) (db' : CmdDB)
      (c' : AgentCommand) (h : acknowledge db aid cid res now = .ok (db', c')) :
      QStep ttl db db'
  | output (db : CmdDB) (aid cid txt : String) (db' : CmdDB)
      (h : append_output db aid cid txt = .ok db') :
      QStep ttl db db'

/-- Any interleaving of queue operations. -/
def QSteps (ttl : Int) : CmdDB → CmdDB → Prop :=
  Relation.ReflTransGen (QStep ttl)

theorem acknowledge_ok_inv {db : CmdDB} {aid cid res : String} {now : Int}
    {db' : CmdDB} {cp : AgentCommand}
    (h : acknowledge db aid cid res now = .ok (db', cp)) :
    ∃ c0, find_by_id db cid = some c0 ∧ c0.agent_id = aid ∧
      ¬(c0.status = "acked" ∨ c0.status = "expired") ∧
      (db', cp) = mark_acked db c0 res now := by
  unfold acknowledge at h
  cases hfind : find_by_id db cid with
  | none => rw [hfind] at h; cases h
  | some c0 =>
    rw [hfind] at h
    by_cases hag : c0.agent_id = aid
    · by_cases hterm : c0.status = "acked" ∨ c0.status = "expired"
      · simp [hag, hterm] at h
      · refine ⟨c0, rfl, hag, hterm, ?_⟩
        simp only [hag, ne_eq, not_true_eq_false, if_false, hterm,
          if_false] at h
        exact (Except.ok.inj h).symm
    · simp [hag] at h

theorem append_output_ok_inv {db : CmdDB} {aid cid txt : String}
    {db' : CmdDB} (h : append_output db aid cid txt = .ok db') :
    ∃ c0, find_by_id db cid = some c0 ∧ c0.agent_id = aid ∧
      c0.status = "in_progress" ∧ db' = dao_append_output db c0 txt := by
  unfold append_output at h
  cases hfind : find_by_id db cid with
  | none => rw [hfind] at h; cases h
  | some c0 =>
    rw [hfind] at h
    by_cases hag : c0.agent_id = aid
    · by_cases hst : c0.status = "in_progress"
      · refine ⟨c0, rfl, hag, hst, ?_⟩
        simp only [hag, ne_eq, not_true_eq_false, if_false, hst,
          if_false] at h
        exact (Except.ok.inj h).symm
      · simp [hag, hst] at h
    · simp [hag] at h

theorem find_by_id_of_nodup {db : CmdDB} (hnd : (db.map (·.id)).Nodup)
    {c : AgentCommand} (hc : c ∈ db) : find_by_id db c.id = some c := by
  unfold find_by_id
  exact find?_key_of_nodup (fun x => x.id) hnd hc

/-- Pointwise id-preserving rewrites do not change the list of ids. -/
theorem map_id_of_id_preserved {f : AgentCommand → AgentCommand}
    (hf : ∀ r, (f r).id = r.id) (db : CmdDB) :
    (db.map f).map (fun x => x.id) = db.map (fun x => x.id) := by
  rw [List.map_map]
  exact List.map_congr_left (fun r _ => hf r)

theorem mark_expired_id (ids : List String) (now : Int) (r : AgentCommand) :
    ((if r.id ∈ ids then expiredRow r now else r) : AgentCommand).id = r.id := by
  split <;> rfl

theorem mark_in_progress_id (ids : List String) (now : Int) (r : AgentCommand) :
    ((if r.id ∈ ids then inProgressRow r now else r) : AgentCommand).id = r.id := by
  split <;> rfl

theorem replace_row_id (c0 c' : AgentCommand) (hc' : c'.id = c0.id)
    (r : AgentCommand) :
    ((if r.id == c0.id then c' else r) : AgentCommand).id = r.id := by
  by_cases h : (r.id == c0.id) = true
  · rw [if_pos h, hc']
    exact (eq_of_beq h).symm
  · rw [if_neg h]

theorem map_id_poll_pending (ttl : Int) (db : CmdDB) (aid : String) (now : Int) :
    (poll_pending ttl db aid now).1.map (fun x => x.id) =
      db.map (fun x => x.id) := by
  have h1 := map_id_of_id_preserved
    (mark_in_progress_id ((pollFresh ttl db aid now).map (fun x => x.id)) now)
    (mark_expired db ((pollExpired ttl db aid now).map (fun x => x.id)) now)
  have h2 := map_id_of_id_preserved
    (mark_expired_id ((pollExpired ttl db aid now).map (fun x => x.id)) now) db
  exact h1.trans h2

theorem map_id_mark_acked (db : CmdDB) (c0 : AgentCommand) (res : String)
    (now : Int) :
    (mark_acked db c0 res now).1.map (fun x => x.id) =
      db.map (fun x => x.id) :=
  map_id_of_id_preserved (replace_row_id c0 (ackedRow c0 res now) rfl) db

theorem map_id_dao_append_output (db : CmdDB) (c0 : AgentCommand)
    (txt : String) :
    (dao_append_output db c0 txt).map (fun x => x.id) =
      db.map (fun x => x.id) :=
  map_id_of_id_preserved (replace_row_id c0 (appendedRow c0 txt) rfl) db

theorem qstep_map_id {ttl : Int} {db db' : CmdDB} (hstep : QStep ttl db db') :
    db'.map (fun x => x.id) = db.map (fun x => x.id) ∨
      ∃ cid, cid ∉ db.map (fun x => x.id) ∧
        db'.map (fun x => x.id) = db.map (fun x => x.id) ++ [cid] := by
  cases hstep with
  | enqueue aid ty pl now cid hfresh =>
    right
    exact ⟨cid, hfresh, by simp [queue_command]⟩
  | poll aid now => exact Or.inl (map_id_poll_pending ttl db aid now)
  | ack aid cid res now db2 c2 h =>
    obtain ⟨c0, -, -, -, hmk⟩ := acknowledge_ok_inv h
    have hdb2 : db' = (mark_acked db c0 res now).1 := congrArg Prod.fst hmk
    exact Or.inl (hdb2 ▸ map_id_mark_acked db c0 res now)
  | output aid cid txt db2 h =>
    obtain ⟨c0, -, -, -, hdb2⟩ := append_output_ok_inv h
    exact Or.inl (hdb2 ▸ map_id_dao_append_output db c0 txt)

/-- A terminal command (acked or expired) is frozen by every queue step:
assuming primary-key uniqueness of ids, every row carrying its id after the
step is the unchanged row. -/
theorem qstep_terminal_frame {ttl : Int} {db db' : CmdDB}
    (hnd : (db.map (fun x => x.id)).Nodup) {c : AgentCommand} (hc : c ∈ db)
    (hterm : c.status = "acked" ∨ c.status = "expired")
    (hstep : QStep ttl db db') :
    ∀ r' ∈ db', r'.id = c.id → r' = c := by
  have hself : ∀ r ∈ db, r.id = c.id → r = c := fun r hr hid =>
    List.inj_on_of_nodup_map hnd hr hc hid
  cases hstep with
  | enqueue aid ty pl now cid hfresh =>
    intro r' hr' hid
    rcases List.mem_append.mp hr' with hr' | hr'
    · exact hself r' hr' hid
    · exfalso
      have hx : r' = _ := List.mem_singleton.mp hr'
      subst hx
      have hcid : cid = c.id := hid
      exact hfresh (hcid ▸ List.mem_map_of_mem (fun x => x.id) hc)
  | poll aid now =>
    intro r' hr' hid
    have hnp : c.status ≠ "pending" := by
      rcases hterm with h | h <;> rw [h] <;> decide
    obtain ⟨r1, hr1, hr1e⟩ := List.mem_map.mp hr'
    obtain ⟨r0, hr0, hr0e⟩ := List.mem_map.mp hr1
    have hid1 : r1.id = r0.id := by rw [← hr0e]; split <;> rfl
    have hid2 : r'.id = r1.id := by rw [← hr1e]; split <;> rfl
    have hid0 : r0.id = c.id := by rw [← hid, hid2, hid1]
    have hr0c : r0 = c := hself r0 hr0 hid0
    have hnotE : c.id ∉ (pollExpired ttl db aid now).map (fun x => x.id) := by
      intro hmem
      obtain ⟨x, hx, hxid⟩ := List.mem_map.mp hmem
      have hxl := (mem_pollExpired.mp hx).1
      have hxc : x = c := hself x (mem_list_pending.mp hxl).1 hxid
      exact hnp (hxc ▸ (mem_list_pending.mp hxl).2.2)
    have hnotF : c.id ∉ (pollFresh ttl db aid now).map (fun x => x.id) := by
      intro hmem
      obtain ⟨x, hx, hxid⟩ := List.mem_map.mp hmem
      have hxl := (mem_pollFresh.mp hx).1
      have hxc : x = c := hself x (mem_list_pending.mp hxl).1 hxid
      exact hnp (hxc ▸ (mem_list_pending.mp hxl).2.2)
    have he1 : r1 = r0 := by
      rw [← hr0e, if_neg (by rw [hid0]; exact hnotE)]
    have he2 : r' = r1 := by
      rw [← hr1e, if_neg (by rw [hid1, hid0]; exact hnotF)]
    rw [he2, he1, hr0c]
  | ack aid cid res now db2 c2 h =>
    obtain ⟨c0, hfind, hag, hnterm, hmk⟩ := acknowledge_ok_inv h
    have hdb2 : db' = (mark_acked db c0 res now).1 := congrArg Prod.fst hmk
    subst hdb2
    intro r' hr' hid
    obtain ⟨r0, hr0, hr0e⟩ := List.mem_map.mp hr'
    by_cases hcase : (r0.id == c0.id) = true
    · exfalso
      have hc0db : c0 ∈ db := List.mem_of_find?_eq_some hfind
      have hr'c0 : r' = ackedRow c0 res now := by rw [← hr0e, if_pos hcase]
      have hc0id : c0.id = c.id := by rw [← hid, hr'c0]; rfl
      exact hnterm ((hself c0 hc0db hc0id) ▸ hterm)
    · have hx : r' = r0 := by rw [← hr0e, if_neg hcase]
      rw [hx] at hid ⊢
      exact hself r0 hr0 hid
  | output aid cid txt db2 h =>
    obtain ⟨c0, hfind, hag, hst, hdb2⟩ := append_output_ok_inv h
    subst hdb2
    intro r' hr' hid
    obtain ⟨r0, hr0, hr0e⟩ := List.mem_map.mp hr'
    by_cases hcase : (r0.id == c0.id) = true
    · exfalso
      have hc0db : c0 ∈ db := List.mem_of_find?_eq_some hfind
      have hr'c0 : r' = appendedRow c0 txt := by rw [← hr0e, if_pos hcase]
      have hc0id : c0.id = c.id := by rw [← hid, hr'c0]; rfl
      have hcc : c0 = c := hself c0 hc0db hc0id
      rw [hcc] at hst
      rcases hterm with hx | hx <;> rw [hx] at hst <;> exact absurd hst (by decide)
    · have hx : r' = r0 := by rw [← hr0e, if_neg hcase]
      rw [hx] at hid ⊢
      exact hself r0 hr0 hid

theorem qstep_nodup {ttl : Int} {db db' : CmdDB} (hstep : QStep ttl db db')
    (hnd : (db.map (fun x => x.id)).Nodup) :
    (db'.map (fun x => x.id)).Nodup := by
  rcases qstep_map_id hstep with h | ⟨cid, hcid, h⟩
  · rw [h]; exact hnd
  · rw [h]
    simp only [List.nodup_append, List.nodup_cons, List.not_mem_nil,
      not_false_eq_true, List.nodup_nil, and_true, true_and]
    refine ⟨hnd, fun x hx hx1 => ?_⟩
    rw [List.mem_singleton.mp hx1] at hx
    exact hcid hx

theorem qstep_terminal_mem {ttl : Int} {db db' : CmdDB}
    (hnd : (db.map (fun x => x.id)).Nodup) {c : AgentCommand} (hc : c ∈ db)
    (hterm : c.status = "acked" ∨ c.status = "expired")
    (hstep : QStep ttl db db') : c ∈ db' := by
  have hidmem : c.id ∈ db'.map (fun x => x.id) := by
    rcases qstep_map_id hstep with h | ⟨cid, hcid, h⟩ <;> rw [h]
    · exact List.mem_map_of_mem _ hc
    · exact List.mem_append_left _ (List.mem_map_of_mem _ hc)
  obtain ⟨r', hr', hrid⟩ := List.mem_map.mp hidmem
  rw [← qstep_terminal_frame hnd hc hterm hstep r' hr' hrid]
  exact hr'

/-- Closure of the terminal-command frame over arbitrary interleavings of
queue operations. -/
theorem qsteps_terminal_closure {ttl : Int} {db db' : CmdDB}
    (hnd : (db.map (fun x => x.id)).Nodup) {c : AgentCommand} (hc : c ∈ db)
    (hterm : c.status = "acked" ∨ c.status = "expired")
    (hsteps : QSteps ttl db db') :
    ((db'.map (fun x => x.id)).Nodup ∧ c ∈ db')
    ∧ ∀ r' ∈ db', r'.id = c.id → r' = c := by
  induction hsteps with
  | refl =>
    exact ⟨⟨hnd, hc⟩, fun r hr hid => List.inj_on_of_nodup_map hnd hr hc hid⟩
  | tail h1 h2 ih =>
    obtain ⟨⟨hndb, hcb⟩, -⟩ := ih
    exact ⟨⟨qstep_nodup h2 hndb, qstep_terminal_mem hndb hcb hterm h2⟩,
      qstep_terminal_frame hndb hcb hterm h2⟩

/-- Pending command used in the C3 counterexample. -/
def wCmdPending : AgentCommand :=
  { id := "c1", agent_id := "a", type := "Stop", payload := none,
    status := "pending", result := none, output := none,
    created_at := 0, delivered_at := none, acked_at := none }

/-- Counterexample to C3 as stated: `acknowledge` succeeds on a command
that is still `pending` (never delivered), moving it straight to `acked` —
the code only rejects commands already in `acked`/`expired`, so `acked` is
reachable directly from `pending`, not only from `in_progress`. -/
theorem ack_from_pending_cex :
    wCmdPending.status = "pending"
    ∧ acknowledge [wCmdPending] "a" "c1" "ok" 5 =
        .ok (mark_acked [wCmdPending] wCmdPending "ok" 5)
    ∧ (mark_acked [wCmdPending] wCmdPending "ok" 5).2.status = "acked" := by
  exact ⟨rfl, by decide, rfl⟩

/-- C3 (amended).  Status only advances along
pending → {in_progress, acked, expired} and in_progress → {acked, expired}:
a `PollPending` sweep moves stale pending commands directly to `expired`
and fresh ones to `in_progress`; `Ack` succeeds from `pending` or
`in_progress` and fails `AlreadyAcked` once the command is `acked` or
`expired`; `AppendOutput` fails off `in_progress`; every queue operation
either keeps a command's status or advances it along those edges; and once
terminal, no queue operation ever changes the command's status, result or
output. -/
theorem command_terminal_spec (ttl : Int) (db : CmdDB) (c : AgentCommand)
    (hnd : (db.map (fun x => x.id)).Nodup) (hc : c ∈ db) :
    (c.status = "acked" ∨ c.status = "expired" →
      (∀ res now, acknowledge db c.agent_id c.id res now = .error .alreadyAcked)
      ∧ (∀ txt, append_output db c.agent_id c.id txt = .error .notInProgress)
      ∧ (∀ db', QSteps ttl db db' → ∀ r' ∈ db', r'.id = c.id →
          r'.status = c.status ∧ r'.result = c.result ∧ r'.output = c.output))
    ∧ (c.status = "pending" ∨ c.status = "in_progress" →
      ∀ res now, acknowledge db c.agent_id c.id res now =
        .ok (mark_acked db c res now))
    ∧ (c.status = "pending" ∨ c.status = "in_progress" ∨
         c.status = "acked" ∨ c.status = "expired" →
      ∀ db', QStep ttl db db' → ∀ r' ∈ db', r'.id = c.id →
        r'.status = c.status
        ∨ (c.status = "pending" ∧ (r'.status = "in_progress" ∨
             r'.status = "acked" ∨ r'.status = "expired"))
        ∨ (c.status = "in_progress" ∧ (r'.status = "acked" ∨
             r'.status = "expired"))) := by
  have hfind : find_by_id db c.id = some c := find_by_id_of_nodup hnd hc
  have hself : ∀ r ∈ db, r.id = c.id → r = c := fun r hr hid =>
    List.inj_on_of_nodup_map hnd hr hc hid
  refine ⟨?_, ?_, ?_⟩
  · intro hterm
    refine ⟨fun res now => ?_, fun txt => ?_, fun db' hsteps r' hr' hid => ?_⟩
    · simp [acknowledge, hfind, hterm]
    · have hnip : c.status ≠ "in_progress" := by
        rcases hterm with h | h <;> rw [h] <;> decide
      simp [append_output, hfind, hnip]
    · have := (qsteps_terminal_closure hnd hc hterm hsteps).2 r' hr' hid
      rw [this]
      exact ⟨rfl, rfl, rfl⟩
  · intro hact res now
    have hnterm : ¬(c.status = "acked" ∨ c.status = "expired") := by
      rcases hact with h | h <;> rw [h] <;> decide
    simp [acknowledge, hfind, hnterm]
  · intro hcanon db' hstep r' hr' hid
    cases hstep with
    | enqueue aid ty pl now cid hfresh =>
      rcases List.mem_append.mp hr' with h1 | h1
      · exact Or.inl (congrArg AgentCommand.status (hself r' h1 hid))
      · exfalso
        have hx : r' = _ := List.mem_singleton.mp h1
        subst hx
        exact hfresh ((show cid = c.id from hid) ▸
          List.mem_map_of_mem (fun x => x.id) hc)
    | poll aid now =>
      obtain ⟨r1, hr1, hr1e⟩ := List.mem_map.mp hr'
      obtain ⟨r0, hr0, hr0e⟩ := List.mem_map.mp hr1
      have hid1 : r1.id = r0.id := by rw [← hr0e]; split <;> rfl
      have hid2 : r'.id = r1.id := by rw [← hr1e]; split <;> rfl
      have hid0 : r0.id = c.id := by rw [← hid1, ← hid2, hid]
      have hr0c : r0 = c := hself r0 hr0 hid0
      rw [hr0c] at hr0e
      by_cases hE : c.id ∈ (pollExpired ttl db aid now).map (fun x => x.id)
      · obtain ⟨x, hx, hxid⟩ := List.mem_map.mp hE
        have hxc : x = c :=
          hself x (mem_list_pending.mp (mem_pollExpired.mp hx).1).1 hxid
        have hcpend : c.status = "pending" := by
          rw [← hxc]
          exact (mem_list_pending.mp (mem_pollExpired.mp hx).1).2.2
        have hcstale : ttl < now - c.created_at := by
          rw [← hxc]
          exact (mem_pollExpired.mp hx).2
        have hnotF : c.id ∉ (pollFresh ttl db aid now).map (fun x => x.id) := by
          intro hm
          obtain ⟨y, hy, hyid⟩ := List.mem_map.mp hm
          have hyc : y = c :=
            hself y (mem_list_pending.mp (mem_pollFresh.mp hy).1).1 hyid
          have hyf := (mem_pollFresh.mp hy).2
          rw [hyc] at hyf
          exact absurd hcstale (not_lt.mpr hyf)
        have he1 : r1 = expiredRow c now := by rw [← hr0e, if_pos hE]
        have he2 : r' = r1 := by
          rw [← hr1e, if_neg (by rw [he1]; exact hnotF)]
        rw [he2, he1]
        exact Or.inr (Or.inl ⟨hcpend, Or.inr (Or.inr rfl)⟩)
      · by_cases hF : c.id ∈ (pollFresh ttl db aid now).map (fun x => x.id)
        · obtain ⟨y, hy, hyid⟩ := List.mem_map.mp hF
          have hyc : y = c :=
            hself y (mem_list_pending.mp (mem_pollFresh.mp hy).1).1 hyid
          have hcpend : c.status = "pending" := by
            rw [← hyc]
            exact (mem_list_pending.mp (mem_pollFresh.mp hy).1).2.2
          have he1 : r1 = c := by rw [← hr0e, if_neg hE]
          have he2 : r' = inProgressRow r1 now := by
            rw [← hr1e, if_pos (by rw [he1]; exact hF)]
          rw [he2, he1]
          exact Or.inr (Or.inl ⟨hcpend, Or.inl rfl⟩)
        · have he1 : r1 = c := by rw [← hr0e, if_neg hE]
          have he2 : r' = r1 := by
            rw [← hr1e, if_neg (by rw [he1]; exact hF)]
          rw [he2, he1]
          exact Or.inl rfl
    | ack aid cid res now db2 c2 hack =>
      obtain ⟨c0, hfind0, hag0, hnterm, hmk⟩ := acknowledge_ok_inv hack
      have hdb2 : db' = (mark_acked db c0 res now).1 := congrArg Prod.fst hmk
      rw [hdb2] at hr'
      obtain ⟨r0, hr0, hr0e⟩ := List.mem_map.mp hr'
      by_cases hcase : (r0.id == c0.id) = true
      · have hr'a : r' = ackedRow c0 res now := by rw [← hr0e, if_pos hcase]
        have hc0id : c0.id = c.id := by rw [← hid, hr'a]; rfl
        have hc0c : c0 = c := hself c0 (List.mem_of_find?_eq_some hfind0) hc0id
        rw [hc0c] at hnterm
        have hact : c.status = "pending" ∨ c.status = "in_progress" := by
          rcases hcanon with h | h | h | h
          · exact Or.inl h
          · exact Or.inr h
          · exact absurd (Or.inl h) hnterm
          · exact absurd (Or.inr h) hnterm
        rw [hr'a]
        rcases hact with h | h
        · exact Or.inr (Or.inl ⟨h, Or.inr (Or.inl rfl)⟩)
        · exact Or.inr (Or.inr ⟨h, Or.inl rfl⟩)
      · have hx : r' = r0 := by rw [← hr0e, if_neg hcase]
        rw [hx] at hid ⊢
        exact Or.inl (congrArg AgentCommand.status (hself r0 hr0 hid))
    | output aid cid txt db2 hout =>
      obtain ⟨c0, hfind0, hag0, hst0, hdb2⟩ := append_output_ok_inv hout
      rw [hdb2] at hr'
      obtain ⟨r0, hr0, hr0e⟩ := List.mem_map.mp hr'
      by_cases hcase : (r0.id == c0.id) = true
      · have hr'a : r' = appendedRow c0 txt := by rw [← hr0e, if_pos hcase]
        have hc0id : c0.id = c.id := by rw [← hid, hr'a]; rfl
        have hc0c : c0 = c := hself c0 (List.mem_of_find?_eq_some hfind0) hc0id
        rw [hr'a, hc0c]
        exact Or.inl rfl
      · have hx : r' = r0 := by rw [← hr0e, if_neg hcase]
        rw [hx] at hid ⊢
        exact Or.inl (congrArg AgentCommand.status (hself r0 hr0 hid))

/-- Witness for C3 (amended) on concrete commands: repeated Ack on an
acked command fails `AlreadyAcked` and AppendOutput fails; a pending
command acks successfully; and a poll step moves the pending command only
along an allowed edge (here to `in_progress`). -/
theorem command_terminal_spec_witness :
    (acknowledge [{ wCmdPending with status := "acked" }] "a" "c1" "r2" 9 =
        .error .alreadyAcked)
    ∧ (append_output [{ wCmdPending with status := "acked" }] "a" "c1" "x" =
        .error .notInProgress)
    ∧ (acknowledge [wCmdPending] "a" "c1" "r1" 5 =
        .ok (mark_acked [wCmdPending] wCmdPending "r1" 5))
    ∧ ((inProgressRow wCmdPending 0).status = wCmdPending.status
        ∨ (wCmdPending.status = "pending" ∧
            ((inProgressRow wCmdPending 0).status = "in_progress" ∨
             (inProgressRow wCmdPending 0).status = "acked" ∨
             (inProgressRow wCmdPending 0).status = "expired"))
        ∨ (wCmdPending.status = "in_progress" ∧
            ((inProgressRow wCmdPending 0).status = "acked" ∨
             (inProgressRow wCmdPending 0).status = "expired"))) := by
  have h := command_terminal_spec 30 [{ wCmdPending with status := "acked" }]
    { wCmdPending with status := "acked" } (by decide) (by decide)
  have h2 := command_terminal_spec 30 [wCmdPending] wCmdPending
    (by decide) (by decide)
  exact ⟨(h.1 (Or.inl rfl)).1 "r2" 9, (h.1 (Or.inl rfl)).2.1 "x",
    h2.2.1 (Or.inl rfl) "r1" 5,
    h2.2.2 (Or.inl rfl) (poll_pending 30 [wCmdPending] "a" 0).1
      (QStep.poll [wCmdPending] "a" 0) (inProgressRow wCmdPending 0)
      (by decide) (by decide)⟩

/-- C6.  In a `PollPending` sweep, a pending command of the agent whose age
exceeds the TTL is marked `expired` with `delivered_at = now`, excluded
from the returned list, and remains visible through `ListByAgent` filtered
by status `expired` with `delivered_at` set and `acked_at` still unset;
a pending command within the TTL is marked `in_progress` with
`delivered_at = now` and returned in the minimal wire shape whose
`trace_id` equals the command id. -/
theorem poll_sweep_spec (ttl : Int) (db : CmdDB) (aid : String) (now : Int)
    (c : AgentCommand) (hnd : (db.map (fun x => x.id)).Nodup)
    (hc : c ∈ db) (hag : c.agent_id = aid) (hst : c.status = "pending")
    (hack : c.acked_at = none) :
    (ttl < now - c.created_at →
      expiredRow c now ∈ (poll_pending ttl db aid now).1
      ∧ (∀ p ∈ (poll_pending ttl db aid now).2, p.command_id ≠ c.id)
      ∧ expiredRow c now ∈
          list_by_agent (poll_pending ttl db aid now).1 aid (some "expired")
      ∧ (expiredRow c now).delivered_at = some now
      ∧ (expiredRow c now).acked_at = none)
    ∧ (now - c.created_at ≤ ttl →
      inProgressRow c now ∈ (poll_pending ttl db aid now).1
      ∧ commandToPollDict c ∈ (poll_pending ttl db aid now).2
      ∧ (commandToPollDict c).trace_id = c.id
      ∧ (commandToPollDict c).command_id = c.id
      ∧ (inProgressRow c now).delivered_at = some now) := by
  have hlp : c ∈ list_pending db aid := mem_list_pending.mpr ⟨hc, hag, hst⟩
  constructor
  · intro hstale
    have hcE : c ∈ pollExpired ttl db aid now :=
      mem_pollExpired.mpr ⟨hlp, hstale⟩
    have hidE : c.id ∈ (pollExpired ttl db aid now).map (fun x => x.id) :=
      List.mem_map_of_mem _ hcE
    have hnotF : c.id ∉ (pollFresh ttl db aid now).map (fun x => x.id) := by
      intro hmem
      obtain ⟨x, hx, hxid⟩ := List.mem_map.mp hmem
      obtain ⟨hxl, hxf⟩ := mem_pollFresh.mp hx
      have hxc : x = c :=
        List.inj_on_of_nodup_map hnd (mem_list_pending.mp hxl).1 hc hxid
      rw [hxc] at hxf
      exact absurd hstale (not_lt.mpr hxf)
    have hmem1 : expiredRow c now ∈
        mark_expired db ((pollExpired ttl db aid now).map (fun x => x.id)) now :=
      List.mem_map.mpr ⟨c, hc, if_pos hidE⟩
    have hmem2 : expiredRow c now ∈ (poll_pending ttl db aid now).1 :=
      List.mem_map.mpr ⟨expiredRow c now, hmem1, if_neg hnotF⟩
    refine ⟨hmem2, ?_, ?_, rfl, ?_⟩
    · intro p hp hpid
      obtain ⟨x, hx, hxe⟩ := List.mem_map.mp hp
      apply hnotF
      rw [← hpid, ← hxe]
      exact List.mem_map_of_mem _ hx
    · rw [list_by_agent]
      rw [List.mem_insertionSort, List.mem_filter, List.mem_filter]
      refine ⟨⟨hmem2, ?_⟩, ?_⟩
      · show ((expiredRow c now).agent_id == aid) = true
        simp [expiredRow, hag]
      · show ((expiredRow c now).status == "expired") = true
        simp [expiredRow]
    · show c.acked_at = none
      exact hack
  · intro hfreshc
    have hcF : c ∈ pollFresh ttl db aid now :=
      mem_pollFresh.mpr ⟨hlp, hfreshc⟩
    have hidF : c.id ∈ (pollFresh ttl db aid now).map (fun x => x.id) :=
      List.mem_map_of_mem _ hcF
    have hnotE : c.id ∉ (pollExpired ttl db aid now).map (fun x => x.id) := by
      intro hmem
      obtain ⟨x, hx, hxid⟩ := List.mem_map.mp hmem
      obtain ⟨hxl, hxf⟩ := mem_pollExpired.mp hx
      have hxc : x = c :=
        List.inj_on_of_nodup_map hnd (mem_list_pending.mp hxl).1 hc hxid
      rw [hxc] at hxf
      exact absurd hxf (not_lt.mpr hfreshc)
    have hmem1 : c ∈
        mark_expired db ((pollExpired ttl db aid now).map (fun x => x.id)) now :=
      List.mem_map.mpr ⟨c, hc, if_neg hnotE⟩
    have hmem2 : inProgressRow c now ∈ (poll_pending ttl db aid now).1 :=
      List.mem_map.mpr ⟨c, hmem1, if_pos hidF⟩
    exact ⟨hmem2, List.mem_map_of_mem _ hcF, rfl, rfl, rfl⟩

/-- Concrete queue with one stale and one fresh pending command for the C6
witness. -/
def wQueueDb : CmdDB :=
  [{ id := "s1", agent_id := "a", type := "Stop", payload := none,
     status := "pending", result := none, output := none,
     created_at := 0, delivered_at := none, acked_at := none },
   { id := "f1", agent_id := "a", type := "Go", payload := none,
     status := "pending", result := none, output := none,
     created_at := 95, delivered_at := none, acked_at := none }]

/-- Witness for C6 with TTL 30 at time 100: the command created at 0 is
expired and listed, the one created at 95 is delivered in wire shape. -/
theorem poll_sweep_spec_witness :
    (expiredRow
        { id := "s1", agent_id := "a", type := "Stop", payload := none,
          status := "pending", result := none, output := none,
          created_at := 0, delivered_at := none, acked_at := none } 100 ∈
      list_by_agent (poll_pending 30 wQueueDb "a" 100).1 "a" (some "expired"))
    ∧ (commandToPollDict
        { id := "f1", agent_id := "a", type := "Go", payload := none,
          status := "pending", result := none, output := none,
          created_at := 95, delivered_at := none, acked_at := none } ∈
      (poll_pending 30 wQueueDb "a" 100).2) := by
  have hs := poll_sweep_spec 30 wQueueDb "a" 100
    { id := "s1", agent_id := "a", type := "Stop", payload := none,
      status := "pending", result := none, output := none,
      created_at := 0, delivered_at := none, acked_at := none }
    (by decide) (by decide) (by decide) (by decide) (by decide)
  have hf := poll_sweep_spec 30 wQueueDb "a" 100
    { id := "f1", agent_id := "a", type := "Go", payload := none,
      status := "pending", result := none, output := none,
      created_at := 95, delivered_at := none, acked_at := none }
    (by decide) (by decide) (by decide) (by decide) (by decide)
  exact ⟨(hs.1 (by decide)).2.2.1, (hf.2 (by decide)).2.1⟩

/-- `k` is the id of a live row and no row with id `k` is pending, so the
command with id `k` can never be delivered again. -/
def NoPending (k : String) (db : CmdDB) : Prop :=
  k ∈ db.map (fun x => x.id) ∧ ∀ r ∈ db, r.id = k → r.status ≠ "pending"

theorem noPending_after_poll {ttl : Int} {db : CmdDB} {aid : String}
    {now : Int} {k : String}
    (hk : k ∈ (poll_pending ttl db aid now).2.map (fun p => p.command_id)) :
    NoPending k (poll_pending ttl db aid now).1 := by
  obtain ⟨p, hp, hpid⟩ := List.mem_map.mp hk
  obtain ⟨x, hx, hxe⟩ := List.mem_map.mp hp
  have hxid : x.id = k := by rw [← hpid, ← hxe]; rfl
  have hxdb : x ∈ db := (mem_list_pending.mp (mem_pollFresh.mp hx).1).1
  constructor
  · rw [map_id_poll_pending]
    exact hxid ▸ List.mem_map_of_mem _ hxdb
  · intro r' hr' hid hpend
    obtain ⟨r1, hr1, hr1e⟩ := List.mem_map.mp hr'
    have hid1 : r1.id = k := by
      have hr'id : r'.id = r1.id := by rw [← hr1e]; split <;> rfl
      rw [← hr'id, hid]
    have hidF : r1.id ∈ (pollFresh ttl db aid now).map (fun x => x.id) := by
      rw [hid1, ← hxid]
      exact List.mem_map_of_mem _ hx
    have hr'ip : r' = inProgressRow r1 now := by rw [← hr1e, if_pos hidF]
    rw [hr'ip] at hpend
    simp [inProgressRow] at hpend

theorem qstep_noPending {ttl : Int} {db db' : CmdDB} {k : String}
    (hstep : QStep ttl db db') (h : NoPending k db) : NoPending k db' := by
  obtain ⟨hkid, hnp⟩ := h
  constructor
  · rcases qstep_map_id hstep with he | ⟨cid, hcid, he⟩ <;> rw [he]
    · exact hkid
    · exact List.mem_append_left _ hkid
  · intro r' hr' hid hpend
    cases hstep with
    | enqueue aid ty pl now cid hfresh =>
      rcases List.mem_append.mp hr' with h1 | h1
      · exact hnp r' h1 hid hpend
      · have hx : r' = _ := List.mem_singleton.mp h1
        subst hx
        exact hfresh ((show cid = k from hid) ▸ hkid)
    | poll aid now =>
      obtain ⟨r1, hr1, hr1e⟩ := List.mem_map.mp hr'
      obtain ⟨r0, hr0, hr0e⟩ := List.mem_map.mp hr1
      by_cases hF : r1.id ∈ (pollFresh ttl db aid now).map (fun x => x.id)
      · have hx : r' = inProgressRow r1 now := by rw [← hr1e, if_pos hF]
        rw [hx] at hpend
        simp [inProgressRow] at hpend
      · have hx : r' = r1 := by rw [← hr1e, if_neg hF]
        by_cases hE : r0.id ∈ (pollExpired ttl db aid now).map (fun x => x.id)
        · have hy : r1 = expiredRow r0 now := by rw [← hr0e, if_pos hE]
          rw [hx, hy] at hpend
          simp [expiredRow] at hpend
        · have hy : r1 = r0 := by rw [← hr0e, if_neg hE]
          rw [hx, hy] at hid hpend
          exact hnp r0 hr0 hid hpend
    | ack aid cid res now db2 c2 hack =>
      obtain ⟨c0, hfind, hag, hnterm, hmk⟩ := acknowledge_ok_inv hack
      have hdb2 : db' = (mark_acked db c0 res now).1 := congrArg Prod.fst hmk
      rw [hdb2] at hr'
      obtain ⟨r0, hr0, hr0e⟩ := List.mem_map.mp hr'
      by_cases hcase : (r0.id == c0.id) = true
      · have hx : r' = ackedRow c0 res now := by rw [← hr0e, if_pos hcase]
        rw [hx] at hpend
        simp [ackedRow] at hpend
      · have hx : r' = r0 := by rw [← hr0e, if_neg hcase]
        rw [hx] at hid hpend
        exact hnp r0 hr0 hid hpend
    | output aid cid txt db2 hout =>
      obtain ⟨c0, hfind, hag, hst, hdb2⟩ := append_output_ok_inv hout
      rw [hdb2] at hr'
      obtain ⟨r0, hr0, hr0e⟩ := List.mem_map.mp hr'
      by_cases hcase : (r0.id == c0.id) = true
      · have hx : r' = appendedRow c0 txt := by rw [← hr0e, if_pos hcase]
        rw [hx] at hpend
        have hps : c0.status = "pending" := hpend
        rw [hst] at hps
        exact absurd hps (by decide)
      · have hx : r' = r0 := by rw [← hr0e, if_neg hcase]
        rw [hx] at hid hpend
        exact hnp r0 hr0 hid hpend

theorem qsteps_noPending {ttl : Int} {db db' : CmdDB} {k : String}
    (hsteps : QSteps ttl db db') (h : NoPending k db) : NoPending k db' := by
  induction hsteps with
  | refl => exact h
  | tail h1 h2 ih => exact qstep_noPending h2 ih

theorem noPending_blocks {ttl : Int} {db : CmdDB} {k : String}
    (h : NoPending k db) (aid : String) (now : Int) :
    k ∉ (poll_pending ttl db aid now).2.map (fun p => p.command_id) := by
  intro hk
  obtain ⟨p, hp, hpid⟩ := List.mem_map.mp hk
  obtain ⟨x, hx, hxe⟩ := List.mem_map.mp hp
  have hxid : x.id = k := by rw [← hpid, ← hxe]; rfl
  have hxl := (mem_pollFresh.mp hx).1
  exact h.2 x (mem_list_pending.mp hxl).1 hxid (mem_list_pending.mp hxl).2.2

/-- C1.  Within a single `PollPending`, delivered commands are exactly the
fresh pending commands of the agent in oldest-first `created_at` order; an
immediately repeated `PollPending` for the same agent returns the empty
list; and once a command id has been delivered by some poll, no later poll
— after any interleaving of enqueues (with fresh UUIDs), polls, acks and
output appends — ever returns it again: delivery is at-most-once. -/
theorem at_most_once_delivery (ttl : Int) (db : CmdDB) (aid : String)
    (now : Int) :
    List.Sorted (fun a b => a.created_at ≤ b.created_at)
      (pollFresh ttl db aid now)
    ∧ (poll_pending ttl db aid now).2 =
        (pollFresh ttl db aid now).map commandToPollDict
    ∧ (∀ now2, (poll_pending ttl (poll_pending ttl db aid now).1 aid now2).2 = [])
    ∧ (∀ k db2 aid2 now2,
        k ∈ (poll_pending ttl db aid now).2.map (fun p => p.command_id) →
        QSteps ttl (poll_pending ttl db aid now).1 db2 →
        k ∉ (poll_pending ttl db2 aid2 now2).2.map (fun p => p.command_id)) := by
  refine ⟨sorted_pollFresh ttl db aid now, rfl, fun now2 => ?_,
    fun k db2 aid2 now2 hk hsteps => ?_⟩
  · have hfilter : (poll_pending ttl db aid now).1.filter
        (fun c => c.agent_id == aid && c.status == "pending") = [] := by
      rw [List.filter_eq_nil_iff]
      intro r' hr' hpred
      obtain ⟨r1, hr1, hr1e⟩ := List.mem_map.mp hr'
      obtain ⟨r0, hr0, hr0e⟩ := List.mem_map.mp hr1
      by_cases hF : r1.id ∈ (pollFresh ttl db aid now).map (fun x => x.id)
      · have hx : r' = inProgressRow r1 now := by rw [← hr1e, if_pos hF]
        rw [hx] at hpred
        simp [inProgressRow] at hpred
      · have hx : r' = r1 := by rw [← hr1e, if_neg hF]
        by_cases hE : r0.id ∈ (pollExpired ttl db aid now).map (fun x => x.id)
        · have hy : r1 = expiredRow r0 now := by rw [← hr0e, if_pos hE]
          rw [hx, hy] at hpred
          simp [expiredRow] at hpred
        · have hy : r1 = r0 := by rw [← hr0e, if_neg hE]
          rw [hx, hy] at hpred
          have hr0l : r0 ∈ list_pending db aid := by
            simp only [Bool.and_eq_true, beq_iff_eq] at hpred
            exact mem_list_pending.mpr ⟨hr0, hpred.1, hpred.2⟩
          by_cases hage : ttl < now - r0.created_at
          · exact hE (List.mem_map_of_mem _ (mem_pollExpired.mpr ⟨hr0l, hage⟩))
          · refine hF ?_
            rw [hy]
            exact List.mem_map_of_mem _
              (mem_pollFresh.mpr ⟨hr0l, not_lt.mp hage⟩)
    have hlp : list_pending (poll_pending ttl db aid now).1 aid = [] := by
      rw [list_pending, hfilter]
      rfl
    have hpf : pollFresh ttl (poll_pending ttl db aid now).1 aid now2 = [] := by
      rw [pollFresh, hlp]
      rfl
    show (pollFresh ttl (poll_pending ttl db aid now).1 aid now2).map
        commandToPollDict = []
    rw [hpf]
    rfl
  · exact noPending_blocks (qsteps_noPending hsteps (noPending_after_poll hk))
      aid2 now2

/-- Witness for C1: the concrete pending command is delivered by the first
poll and refused by an immediately following poll of the resulting store. -/
theorem at_most_once_delivery_witness :
    "c1" ∉ (poll_pending 30 (poll_pending 30 [wCmdPending] "a" 0).1
        "a" 0).2.map (fun p => p.command_id) :=
  (at_most_once_delivery 30 [wCmdPending] "a" 0).2.2.2 "c1"
    (poll_pending 30 [wCmdPending] "a" 0).1 "a" 0 (by decide)
    Relation.ReflTransGen.refl

end Faros
